import Mathlib

/-!
Verification development for the GRE-Vocab-Master core: a shallow embedding of
the spaced-repetition scheduler (src/utils srs file), the persistence layer
acknowledgment (src/utils/db.ts), the background enrichment worker, the
grading handlers, the import handlers and the reshuffle reordering of the two
app orchestration files (src/App.tsx and the alternate orchestration file,
part_002).  JS numbers holding epoch milliseconds or Leitner boxes are
modelled as `Int`; JS string comparison as `String` equality; asynchronous
fetches and IndexedDB put outcomes as explicit oracle parameters.
-/

/-- one (contextType, definition) entry of a word's definitions list. -/
structure DefinitionEntry where
  contextType : String
  definition : String
deriving DecidableEq

/-- WordData record as used throughout the app: identity, headword, the five
enrichment content fields, the user fields, and the Leitner scheduling fields.
Optional JS fields are `Option`; `leitnerBox`, `nextReviewDate` and
`lastReview` are epoch-millisecond / box numbers modelled as `Int`. -/
structure WordData where
  id : String
  word : String
  definitions : List DefinitionEntry
  examples : List String
  synonyms : List String
  etymology : String
  aiMnemonic : String
  userMnemonic : Option String := none
  aiImageUrl : Option String := none
  mastered : Bool
  isCustom : Bool := false
  leitnerBox : Int
  nextReviewDate : Int
  lastReview : Int := 0
deriving DecidableEq

/-- AppState root aggregate: the ordered words collection plus the session
counters persisted as one document. -/
structure AppState where
  words : List WordData
  streak : Int
  lastLoginDate : String
  dailyGoal : Int
  dailyProgress : Int
  dailyUniqueProgress : Int
  darkMode : Bool
deriving DecidableEq

/-- INTERVALS table of the srs file: standard Leitner intervals in days,
indexed by box number. -/
def INTERVALS : List Nat := [1, 1, 3, 7, 14, 30]

/-- models the js expression INTERVALS[newBox] with its or-else fallback of 1:
an out-of-range index yields undefined (falsy) and a zero entry would be
falsy, both replaced by 1. -/
def intervalsAtOrOne (b : Int) : Nat :=
  if 0 ≤ b then
    match INTERVALS.get? b.toNat with
    | some v => if v = 0 then 1 else v
    | none => 1
  else 1

/-- return record of calculateNextReview, mirroring the js object
with fields box and nextReview. -/
structure NextReviewOutcome where
  box : Int
  nextReview : Int
deriving DecidableEq

/-- calculateNextReview from the srs file: promote to min(box+1, 5) on a
correct answer, reset to box 1 on an incorrect one, and schedule the next
review at now plus the interval-table days in milliseconds.  Date.now() is
passed explicitly as now. -/
def calculateNextReview (currentBox : Int) (isCorrect : Bool) (now : Int) :
    NextReviewOutcome :=
  let newBox : Int := if isCorrect then min (currentBox + 1) 5 else 1
  let daysToAdd : Nat := intervalsAtOrOne newBox
  { box := newBox, nextReview := now + (daysToAdd : Int) * (24 * 60 * 60 * 1000) }

/-- isDueForReview from the srs file.  The js truthiness test
!word.nextReviewDate is modelled as nextReviewDate = 0; Date.now() is passed
explicitly as now. -/
def isDueForReview (word : WordData) (now : Int) : Bool :=
  if word.mastered then false
  else if word.nextReviewDate = 0 ∧ 0 < word.leitnerBox then true
  else decide (0 < word.leitnerBox ∧ word.nextReviewDate ≤ now)

/-- getReviewQueue from the srs file: the words that are due, in collection
order. -/
def getReviewQueue (words : List WordData) (now : Int) : List WordData :=
  words.filter (fun w => isDueForReview w now)

/-- interval table named by the claim, {0:1, 1:1, 2:3, 3:7, 4:14, 5:30} days,
written directly from the claim's words for comparison with the code's
computed due date. -/
def specIntervalDays (b : Int) : Int :=
  if b = 0 then 1 else if b = 1 then 1 else if b = 2 then 3
  else if b = 3 then 7 else if b = 4 then 14 else if b = 5 then 30 else 0

/-- sample word used by the concrete witnesses: an untouched (box 0) custom
word before enrichment. -/
def sampleWordNew : WordData :=
  { id := "custom-1-a"
    word := "abate"
    definitions := []
    examples := []
    synonyms := []
    etymology := ""
    aiMnemonic := ""
    mastered := false
    isCustom := true
    leitnerBox := 0
    nextReviewDate := 0 }

/-- sample word in the learning pile with an unset nextReviewDate, the
data-integrity gap case of isDueForReview. -/
def sampleDueWord : WordData :=
  { sampleWordNew with
    id := "seed-1-0"
    word := "laconic"
    isCustom := false
    leitnerBox := 1
    nextReviewDate := 0 }

/-- Modelled from the spec: the geminiService file is not under src, so the
shape of the fetchWordDetails result is taken from the spec's ContentProvider
interface, the record of content fields {definitions, examples, synonyms,
etymology, aiMnemonic}. -/
structure WordDetails where
  definitions : List DefinitionEntry
  examples : List String
  synonyms : List String
  etymology : String
  aiMnemonic : String
deriving DecidableEq

/-- spread update {...w, ...details}: the fetched record overwrites exactly
the five content fields of the word it is spread over. -/
def applyDetails (w : WordData) (d : WordDetails) : WordData :=
  { w with
    definitions := d.definitions
    examples := d.examples
    synonyms := d.synonyms
    etymology := d.etymology
    aiMnemonic := d.aiMnemonic }

/-- outcome of the IndexedDB put issued by saveStoredState, passed as an
explicit oracle. -/
inductive PutOutcome
  | completed
  | storageError
deriving DecidableEq

/-- saveStoredState from src/utils/db.ts.  The async function issues
indexedDB.open, schedules store.put inside the open onsuccess callback,
registers no handler for the put or for transaction completion or error, and
returns; the promise the caller awaits therefore resolves with unit right
away, whatever the eventual put outcome.  The value returned here is what the
awaiting caller observes for a given put outcome. -/
def saveStoredState (_state : AppState) (_putOutcome : PutOutcome) :
    Except String Unit :=
  Except.ok ()

/-- helper of the js Set construction: append an element unless already
present. -/
def insertUniqueId (acc : List String) (x : String) : List String :=
  if x ∈ acc then acc else acc ++ [x]

/-- js new Set(list) converted back to an array: keeps the first occurrence
of each element, in encounter order. -/
def jsSetDedup (l : List String) : List String := l.foldl insertUniqueId []

/-- setPendingQueue updater [...new Set([...prev, ...ids])] used by init and
handleBulkAddWords in the part_002 orchestration file. -/
def enqueuePending (prev ids : List String) : List String :=
  jsSetDedup (prev ++ ids)

/-- completion continuation of the background fetch in processNext (and of
loadCard): setAppState replaces, in the state current at completion time,
every word matching nextId by the object {...wordToFetch, ...details} built
from the copy of the word read before the fetch started. -/
def enrichmentCompletion (current : AppState) (staleWord : WordData)
    (nextId : String) (details : WordDetails) : AppState :=
  { current with
    words := current.words.map
      (fun w => if w.id == nextId then applyDetails staleWord details else w) }

/-- Modelled from the spec: the merge rule the spec requires of the
enrichment queue, quoted for comparison with enrichmentCompletion: re-read
the current document and apply only content fields onto the current version
of the item. -/
def enrichMergeSpecced (current : AppState) (nextId : String)
    (details : WordDetails) : AppState :=
  { current with
    words := current.words.map
      (fun w => if w.id == nextId then applyDetails w details else w) }

/-- result of one run of the background worker body: the in-memory state, the
remaining queue, whether a provider fetch was issued, and the document handed
to saveStoredState if any. -/
structure ProcessOutcome where
  state : AppState
  queue : List String
  fetched : Bool
  persisted : Option AppState
deriving DecidableEq

/-- processNext from the part_002 orchestration file, as the synchronous
function of the state at worker-run time, the pending queue and the fetch
outcome oracle (none models a rejected fetchWordDetails promise).  The worker
effect only runs on a non-empty queue; the empty case is the guard.  Failures
are logged to the console, which the model drops. -/
def processNext (st : AppState) (queue : List String)
    (fetch : String → Option WordDetails) : ProcessOutcome :=
  match queue with
  | [] => ⟨st, [], false, none⟩
  | nextId :: rest =>
    match st.words.find? (fun w => w.id == nextId) with
    | none => ⟨st, rest, false, none⟩
    | some wordToFetch =>
      match fetch wordToFetch.word with
      | some details =>
        let newState := enrichmentCompletion st wordToFetch nextId details
        ⟨newState, rest, true, some newState⟩
      | none => ⟨st, rest, true, none⟩

/-- handleCardNext from the part_002 orchestration file: the shortcut grading
policy.  A correct answer jumps straight to box 5 with a 30-day due date, an
incorrect one to box 1 with a 1-day due date; mastered is newBox >= 5;
dailyProgress always increments and dailyUniqueProgress increments exactly
when the graded card's prior box was 0.  Date.now() is passed as now. -/
def handleCardNextShortcut (st : AppState) (currentWord : WordData)
    (isCorrect : Bool) (now : Int) : AppState :=
  let newBox : Int := if isCorrect then 5 else 1
  let nextReview : Int :=
    if isCorrect then now + 30 * 24 * 60 * 60 * 1000 else now + 24 * 60 * 60 * 1000
  let uniqueIncrement : Int := if currentWord.leitnerBox = 0 then 1 else 0
  let isMastered : Bool := decide (5 ≤ newBox)
  { st with
    words := st.words.map (fun w =>
      if w.id == currentWord.id then
        { w with
          leitnerBox := newBox
          nextReviewDate := nextReview
          mastered := isMastered
          lastReview := now }
      else w)
    dailyProgress := st.dailyProgress + 1
    dailyUniqueProgress := st.dailyUniqueProgress + uniqueIncrement }

/-- handleCardNext from src/App.tsx: the interval-table grading policy via
calculateNextReview; mastered is box >= 5, dailyProgress increments, and no
dailyUniqueProgress counter exists in this variant.  Date.now() is passed as
now. -/
def handleCardNextSrs (st : AppState) (currentWord : WordData)
    (isCorrect : Bool) (now : Int) : AppState :=
  let r := calculateNextReview currentWord.leitnerBox isCorrect now
  let isMastered : Bool := decide (5 ≤ r.box)
  { st with
    words := st.words.map (fun w =>
      if w.id == currentWord.id then
        { w with
          leitnerBox := r.box
          nextReviewDate := r.nextReview
          mastered := isMastered
          lastReview := now }
      else w)
    dailyProgress := st.dailyProgress + 1 }

/-- JSON.parse result of an import file that parsed successfully, shaped like
an AppState document with every field optional; a field set to none models a
property missing from the parsed object (or, for streak, present with a
non-number value). -/
structure ParsedDoc where
  words : Option (List WordData)
  streak : Option Int
  lastLoginDate : Option String
  dailyGoal : Option Int
  dailyProgress : Option Int
  dailyUniqueProgress : Option Int
  darkMode : Option Bool
deriving DecidableEq

/-- outcome of an import attempt: either the in-memory state and the
persisted document are left exactly as they were, or both are replaced by the
parsed document. -/
inductive ImportOutcome
  | unchanged
  | replaced (d : ParsedDoc)
deriving DecidableEq

/-- handleImportData from the part_002 orchestration file.  A failed
JSON.parse throws into the catch block (unchanged).  Reading
parsedData.words.length for the confirm message throws when words is absent,
also landing in the catch block (unchanged).  Otherwise the confirm answer
decides between replacement and no change. -/
def handleImportDataV2 (input : Option ParsedDoc) (confirmLoad : Bool) :
    ImportOutcome :=
  match input with
  | none => ImportOutcome.unchanged
  | some parsedData =>
    match parsedData.words with
    | none => ImportOutcome.unchanged
    | some _ => if confirmLoad then ImportOutcome.replaced parsedData
                else ImportOutcome.unchanged

/-- handleImportData from src/App.tsx, which additionally throws Invalid file
format when parsedData.words is falsy or parsedData.streak is not a number,
before asking for confirmation. -/
def handleImportDataV1 (input : Option ParsedDoc) (confirmLoad : Bool) :
    ImportOutcome :=
  match input with
  | none => ImportOutcome.unchanged
  | some parsedData =>
    if parsedData.words.isSome && parsedData.streak.isSome then
      if confirmLoad then ImportOutcome.replaced parsedData
      else ImportOutcome.unchanged
    else ImportOutcome.unchanged

/-- validity of a parsed document as an AppState document, following the
format check src/App.tsx itself applies: a words array is present and streak
is a number. -/
def isValidImportDoc (d : ParsedDoc) : Bool :=
  d.words.isSome && d.streak.isSome

/-- swap step of the Fisher-Yates loop, the js destructuring assignment
[newArr[i], newArr[j]] = [newArr[j], newArr[i]]; indices are always in range
at the call sites, and the out-of-range case is the identity. -/
def swapList {α : Type} (l : List α) (i j : Nat) : List α :=
  match l.get? i, l.get? j with
  | some x, some y => (l.set i y).set j x
  | _, _ => l

/-- descending loop of shuffleArray: for i from n-1 while i > 0, swap
position i with position rand i % (i+1).  The draw
Math.floor(Math.random() * (i+1)), uniform on 0..i, is modelled by the oracle
rand reduced mod (i+1). -/
def fisherYatesGo {α : Type} (rand : Nat → Nat) : Nat → List α → List α
  | 0, arr => arr
  | Nat.succ i, arr =>
    fisherYatesGo rand i (swapList arr (i + 1) (rand (i + 1) % (i + 2)))

/-- shuffleArray from the part_002 orchestration file: Fisher-Yates over a
copy of the input array. -/
def shuffleArray {α : Type} (rand : Nat → Nat) (array : List α) : List α :=
  fisherYatesGo rand (array.length - 1) array

/-- provenance tag of course-seeded word ids. -/
def seedTag : String := "seed-"

/-- words reordering built identically by handleSmartReshuffle and by the
init auto-migration branch of the part_002 orchestration file: started seed
words first, unstarted seed words shuffled, non-seed (custom) words last. -/
def reshuffledWords (rand : Nat → Nat) (words : List WordData) :
    List WordData :=
  let seedWords := words.filter (fun w => w.id.startsWith seedTag)
  let customWords := words.filter (fun w => !(w.id.startsWith seedTag))
  let startedSeeds :=
    seedWords.filter (fun w => w.mastered || decide (0 < w.leitnerBox))
  let unstartedSeeds :=
    seedWords.filter (fun w => !w.mastered && decide (w.leitnerBox = 0))
  startedSeeds ++ (shuffleArray rand unstartedSeeds ++ customWords)

/-- sample fetched content used by the concrete race and worker checks. -/
def sampleDetails : WordDetails :=
  { definitions := [{ contextType := "general", definition := "to lessen" }]
    examples := ["the storm abated"]
    synonyms := ["wane"]
    etymology := "from Latin battuere"
    aiMnemonic := "a bate lowers the beat" }

/-- sample id of the word the concrete race and worker checks target. -/
def sampleId : String := "custom-1-a"

/-- sample single-word state used by the concrete checks. -/
def sampleState : AppState :=
  { words := [sampleWordNew]
    streak := 0
    lastLoginDate := ""
    dailyGoal := 20
    dailyProgress := 0
    dailyUniqueProgress := 0
    darkMode := false }

/-- sample parsed import document that has a words array but no numeric
streak field: valid JSON, malformed as an AppState document. -/
def badImportDoc : ParsedDoc :=
  { words := some []
    streak := none
    lastLoginDate := none
    dailyGoal := none
    dailyProgress := none
    dailyUniqueProgress := none
    darkMode := none }

/-- C3: calculateNextReview realises the reference Leitner transition: a
correct answer promotes any box b in 1..4 to b+1 and keeps box 5 at 5; an
incorrect answer from any box in 0..5 resets to box 1; and the returned
nextReview equals now plus the canonical interval-table days for the new box,
in milliseconds (86400000 per day). -/
theorem calculateNextReview_matches_leitner (b now : Int) (c : Bool)
    (hb0 : 0 ≤ b) (hb5 : b ≤ 5) :
    (c = true → b ≤ 4 → (calculateNextReview b c now).box = b + 1) ∧
    (c = true → b = 5 → (calculateNextReview b c now).box = 5) ∧
    (c = false → (calculateNextReview b c now).box = 1) ∧
    (calculateNextReview b c now).nextReview
      = now + specIntervalDays (calculateNextReview b c now).box * 86400000 := by
  interval_cases b <;> cases c <;>
    simp [calculateNextReview, intervalsAtOrOne, INTERVALS, specIntervalDays]

/-- concrete check of C3: a box-2 card answered correctly moves to box 3 and
is due 7 days later. -/
theorem calculateNextReview_matches_leitner_witness :
    (0 : Int) ≤ 2 ∧ (2 : Int) ≤ 5 ∧
    (calculateNextReview 2 true 1000).box = 3 ∧
    (calculateNextReview 2 true 1000).nextReview
      = 1000 + specIntervalDays (calculateNextReview 2 true 1000).box * 86400000 := by
  have h := calculateNextReview_matches_leitner 2 1000 true (by norm_num) (by norm_num)
  exact ⟨by norm_num, by norm_num, h.1 rfl (by norm_num), h.2.2.2⟩

/-- C4: isDueForReview is false for every mastered item regardless of
nextReviewDate, false whenever leitnerBox is 0, true whenever leitnerBox is
positive and nextReviewDate is unset (zero), and otherwise true exactly when
now has reached nextReviewDate. -/
theorem isDueForReview_policy (w : WordData) (now : Int) :
    (w.mastered = true → isDueForReview w now = false) ∧
    (w.leitnerBox = 0 → isDueForReview w now = false) ∧
    (w.mastered = false → 0 < w.leitnerBox → w.nextReviewDate = 0 →
      isDueForReview w now = true) ∧
    (w.mastered = false → 0 < w.leitnerBox → w.nextReviewDate ≠ 0 →
      (isDueForReview w now = true ↔ w.nextReviewDate ≤ now)) := by
  refine ⟨fun hm => ?_, fun hb => ?_, fun hm hb hn => ?_, fun hm hb hn => ?_⟩
  · simp [isDueForReview, hm]
  · simp [isDueForReview, hb]
  · simp [isDueForReview, hm, hb, hn]
  · simp [isDueForReview, hm, hb, hn]

/-- concrete check of C4: the data-integrity-gap word (box 1, nextReviewDate
unset) is treated as due. -/
theorem isDueForReview_policy_witness :
    sampleDueWord.mastered = false ∧ 0 < sampleDueWord.leitnerBox ∧
    sampleDueWord.nextReviewDate = 0 ∧
    isDueForReview sampleDueWord 5000 = true := by
  have h := isDueForReview_policy sampleDueWord 5000
  exact ⟨rfl, by decide, rfl, h.2.2.1 rfl (by decide) rfl⟩

/-- id absent from the sample state, used by the worker drop check. -/
def missingId : String := "missing-id"

/-- helper: an element read at index i from a mapped list is the image of the
element read at i from the original list. -/
theorem get?_map_eq {α β : Type} (f : α → β) (l : List α) (i : Nat) (x : α)
    (y : β) (hx : l.get? i = some x) (hy : (l.map f).get? i = some y) :
    y = f x := by
  rw [List.get?_eq_getElem?] at hx hy
  rw [List.getElem?_map, hx] at hy
  exact (Option.some.inj hy).symm

/-- helper: the new box computed by calculateNextReview never exceeds 5. -/
theorem calculateNextReview_box_le_five (b : Int) (c : Bool) (now : Int) :
    (calculateNextReview b c now).box ≤ 5 := by
  cases c <;> simp [calculateNextReview]

/-- C5 (code evaluation): saveStoredState resolves with success regardless of
the put outcome — in particular when the put fails with a storage error — so
a persistence-layer failure is never surfaced to the awaiting grading caller
and the caller's await does not track the write's completion. -/
theorem saveStoredState_swallows_storage_failure :
    saveStoredState sampleState PutOutcome.storageError = Except.ok () ∧
    ∀ (st : AppState) (p : PutOutcome), saveStoredState st p = Except.ok () :=
  ⟨rfl, fun _ _ => rfl⟩

/-- C1 (code evaluation): with the box-0 sample word, grading correct sets its
box to 5, but an enrichment fetch begun before the grading and completing
after it replaces the item with the pre-fetch copy plus content fields,
reverting the box to 0 — the grading's scheduling fields are lost — whereas
the spec's re-read merge on the same interleaving keeps box 5 together with
the new content. -/
theorem enrichment_race_loses_grading_fields :
    ((handleCardNextShortcut sampleState sampleWordNew true 1000).words.map
        (fun w => w.leitnerBox) = [5]) ∧
    ((enrichmentCompletion
        (handleCardNextShortcut sampleState sampleWordNew true 1000)
        sampleWordNew sampleId sampleDetails).words.map
        (fun w => w.leitnerBox) = [0]) ∧
    ((enrichmentCompletion
        (handleCardNextShortcut sampleState sampleWordNew true 1000)
        sampleWordNew sampleId sampleDetails).words.map
        (fun w => w.definitions) = [sampleDetails.definitions]) ∧
    ((enrichMergeSpecced
        (handleCardNextShortcut sampleState sampleWordNew true 1000)
        sampleId sampleDetails).words.map
        (fun w => w.leitnerBox) = [5]) ∧
    ((enrichMergeSpecced
        (handleCardNextShortcut sampleState sampleWordNew true 1000)
        sampleId sampleDetails).words.map
        (fun w => w.definitions) = [sampleDetails.definitions]) := by
  decide

/-- C2 counterexample: in the part_002 grading handler a box-0 card graded
correct lands in box 5 and is marked mastered at once, while computeTransition
(calculateNextReview) from box 0 on a correct answer yields box 1 — so not
every grading event applies computeTransition to the card's prior box. -/
theorem grade_shortcut_defies_computeTransition :
    sampleWordNew.leitnerBox = 0 ∧
    ((handleCardNextShortcut sampleState sampleWordNew true 0).words.map
        (fun w => w.leitnerBox) = [5]) ∧
    ((handleCardNextShortcut sampleState sampleWordNew true 0).words.map
        (fun w => w.mastered) = [true]) ∧
    (calculateNextReview sampleWordNew.leitnerBox true 0).box = 1 := by
  decide

/-- C2 amended: grading through the src/App.tsx handler sets the graded
entry's box and nextReviewDate to exactly the computeTransition result of the
card's prior box, with mastered true exactly when the new box reaches 5 (so a
box-0 card graded correct moves to box 1, not to box 5); the part_002 handler
instead applies the shortcut policy — box 5, mastered and a 30-day due date
on any correct answer, box 1 with a 1-day due date on an incorrect one. -/
theorem grade_policies (st : AppState) (cw : WordData) (c : Bool) (now : Int) :
    (∀ i x y, st.words.get? i = some x →
      (handleCardNextSrs st cw c now).words.get? i = some y → x.id = cw.id →
      y.leitnerBox = (calculateNextReview cw.leitnerBox c now).box ∧
      y.nextReviewDate = (calculateNextReview cw.leitnerBox c now).nextReview ∧
      (y.mastered = true ↔ (calculateNextReview cw.leitnerBox c now).box = 5) ∧
      y.lastReview = now) ∧
    (calculateNextReview 0 true now).box = 1 ∧
    (∀ i x y, st.words.get? i = some x →
      (handleCardNextShortcut st cw c now).words.get? i = some y →
      x.id = cw.id →
      y.leitnerBox = (if c then (5 : Int) else 1) ∧
      y.mastered = c ∧
      y.nextReviewDate
        = (if c then now + 2592000000 else now + 86400000)) := by
  refine ⟨?_, ?_, ?_⟩
  · intro i x y hx hy hid
    have hfy := get?_map_eq _ _ _ _ _ hx hy
    have hle := calculateNextReview_box_le_five cw.leitnerBox c now
    subst hfy
    simp [hid]
    omega
  · simp [calculateNextReview]
  · intro i x y hx hy hid
    have hfy := get?_map_eq _ _ _ _ _ hx hy
    subst hfy
    cases c <;> simp [hid]

/-- concrete check of the amended C2: grading the box-0 sample word correct
through the src/App.tsx handler puts it in box 1, the computeTransition
result. -/
theorem grade_policies_witness :
    ((handleCardNextSrs sampleState sampleWordNew true 77).words.get? 0).map
        (fun w => w.leitnerBox)
      = some (calculateNextReview sampleWordNew.leitnerBox true 77).box := by
  obtain ⟨y, hy⟩ : ∃ y,
      (handleCardNextSrs sampleState sampleWordNew true 77).words.get? 0
        = some y := ⟨_, rfl⟩
  have h := (grade_policies sampleState sampleWordNew true 77).1 0
    sampleWordNew y rfl hy rfl
  rw [hy]
  simp [h.1]

/-- C6: one run of the worker on queue head nextId removes exactly that head
in every case; a missing word is dropped silently with no fetch, no state
change and no persistence; a failed fetch leaves the state unchanged and
unpersisted and does not re-enqueue the id; a successful fetch merges the
fetched fields into the state and persists exactly the merged document. -/
theorem processNext_policy (st : AppState) (nextId : String)
    (rest : List String) (fetch : String → Option WordDetails) :
    ((processNext st (nextId :: rest) fetch).queue = rest) ∧
    (st.words.find? (fun w => w.id == nextId) = none →
      processNext st (nextId :: rest) fetch = ⟨st, rest, false, none⟩) ∧
    (∀ w, st.words.find? (fun w => w.id == nextId) = some w →
      fetch w.word = none →
      processNext st (nextId :: rest) fetch = ⟨st, rest, true, none⟩) ∧
    (∀ w d, st.words.find? (fun w => w.id == nextId) = some w →
      fetch w.word = some d →
      processNext st (nextId :: rest) fetch =
        ⟨enrichmentCompletion st w nextId d, rest, true,
         some (enrichmentCompletion st w nextId d)⟩) := by
  refine ⟨?_, ?_, ?_, ?_⟩
  · simp only [processNext]
    split
    · rfl
    · split <;> rfl
  · intro h
    simp only [processNext, h]
  · intro w h hfe
    simp only [processNext, h, hfe]
  · intro w d h hfe
    simp only [processNext, h, hfe]

/-- concrete check of C6: an id absent from the state is dropped from the
queue with no fetch, no state change and no persistence. -/
theorem processNext_policy_witness :
    sampleState.words.find? (fun w => w.id == missingId) = none ∧
    processNext sampleState (missingId :: []) (fun _ => none)
      = ⟨sampleState, [], false, none⟩ := by
  refine ⟨by decide, ?_⟩
  exact (processNext_policy sampleState missingId [] (fun _ => none)).2.1
    (by decide)

/-- helper: folding insertUniqueId over any list keeps the accumulator free of
duplicates. -/
theorem foldl_insertUniqueId_nodup (l : List String) :
    ∀ acc : List String, acc.Nodup →
      (List.foldl insertUniqueId acc l).Nodup := by
  induction l with
  | nil => intro acc h; simpa using h
  | cons a t ih =>
    intro acc h
    simp only [List.foldl_cons]
    apply ih
    unfold insertUniqueId
    split
    · exact h
    · rename_i ha
      simp [List.nodup_append, h, ha]

/-- helper: membership after folding insertUniqueId is membership in the
accumulator or in the folded list. -/
theorem mem_foldl_insertUniqueId (l : List String) :
    ∀ (acc : List String) (x : String),
      x ∈ List.foldl insertUniqueId acc l ↔ x ∈ acc ∨ x ∈ l := by
  induction l with
  | nil => intro acc x; simp
  | cons a t ih =>
    intro acc x
    simp only [List.foldl_cons, ih, List.mem_cons]
    unfold insertUniqueId
    split
    · rename_i ha
      constructor
      · rintro (h | h)
        · exact Or.inl h
        · exact Or.inr (Or.inr h)
      · rintro (h | h | h)
        · exact Or.inl h
        · exact Or.inl (h ▸ ha)
        · exact Or.inr h
    · simp [List.mem_append, or_assoc]

/-- C7: enqueuePending has FIFO-set semantics: the resulting pending queue
never contains the same id twice (every id occurs at most once), and it holds
exactly the ids of the previous queue and of the newly enqueued batch, so
enqueueing an id already queued does not duplicate it and at most one fetch
per id can follow. -/
theorem enqueuePending_set_semantics (prev ids : List String) :
    (enqueuePending prev ids).Nodup ∧
    (∀ x, x ∈ enqueuePending prev ids ↔ x ∈ prev ∨ x ∈ ids) ∧
    (∀ x, (enqueuePending prev ids).count x ≤ 1) := by
  have hn : (enqueuePending prev ids).Nodup :=
    foldl_insertUniqueId_nodup (prev ++ ids) [] List.nodup_nil
  refine ⟨hn, fun x => ?_, fun x => List.nodup_iff_count_le_one.mp hn x⟩
  unfold enqueuePending jsSetDedup
  rw [mem_foldl_insertUniqueId (prev ++ ids) [] x]
  simp

/-- C8 counterexample: badImportDoc parses (valid JSON carrying a words array)
but is not a valid AppState document (its streak field is missing), yet the
part_002 import handler replaces the document after confirmation instead of
rejecting it before any state replacement. -/
theorem import_accepts_invalid_doc :
    isValidImportDoc badImportDoc = false ∧
    handleImportDataV2 (some badImportDoc) true
      = ImportOutcome.replaced badImportDoc := by
  decide

/-- C8 amended: an import whose JSON fails to parse, or whose parsed document
lacks a words array, is rejected with the in-memory and persisted state
untouched, and a replacement happens only after user confirmation; but the
part_002 handler applies no further AppState validation — a parsed document
with a words array replaces the state after confirmation even when other
AppState fields are missing — while only the src/App.tsx handler rejects
every document failing its words-and-numeric-streak format check. -/
theorem import_policies (d : ParsedDoc) (confirmLoad : Bool) :
    handleImportDataV2 none confirmLoad = ImportOutcome.unchanged ∧
    handleImportDataV1 none confirmLoad = ImportOutcome.unchanged ∧
    (d.words = none →
      handleImportDataV2 (some d) confirmLoad = ImportOutcome.unchanged) ∧
    handleImportDataV2 (some d) false = ImportOutcome.unchanged ∧
    (d.words.isSome = true →
      handleImportDataV2 (some d) true = ImportOutcome.replaced d) ∧
    (isValidImportDoc d = false →
      handleImportDataV1 (some d) confirmLoad = ImportOutcome.unchanged) ∧
    (isValidImportDoc d = true → confirmLoad = true →
      handleImportDataV1 (some d) confirmLoad = ImportOutcome.replaced d) ∧
    handleImportDataV1 (some d) false = ImportOutcome.unchanged := by
  refine ⟨rfl, rfl, ?_, ?_, ?_, ?_, ?_, ?_⟩
  · intro h
    simp [handleImportDataV2, h]
  · cases hw : d.words <;> simp [handleImportDataV2, hw]
  · intro h
    cases hw : d.words with
    | none => rw [hw] at h; simp at h
    | some ws => simp [handleImportDataV2, hw]
  · intro h
    simp only [isValidImportDoc] at h
    simp [handleImportDataV1, h]
  · intro hv hc
    subst hc
    simp only [isValidImportDoc] at hv
    simp [handleImportDataV1, hv]
  · simp only [handleImportDataV1]
    split <;> rfl

/-- concrete check of the amended C8: the malformed sample document still has
a words array and is therefore replaced by the part_002 handler after
confirmation. -/
theorem import_policies_witness :
    badImportDoc.words.isSome = true ∧
    handleImportDataV2 (some badImportDoc) true
      = ImportOutcome.replaced badImportDoc := by
  have h := import_policies badImportDoc true
  exact ⟨rfl, h.2.2.2.2.1 rfl⟩

/-- C9: grading touches only the graded entry's four scheduling fields and
the daily counters: both grading handlers keep the length and order of the
words collection, leave every entry whose id differs from the graded card's
unchanged, preserve all non-scheduling fields of every entry, leave streak,
lastLoginDate, dailyGoal and darkMode untouched, increment dailyProgress by
one, and the part_002 handler increments dailyUniqueProgress exactly when the
graded card's prior box was 0 while the src/App.tsx handler leaves it
untouched. -/
theorem grading_frame (st : AppState) (cw : WordData) (c : Bool) (now : Int) :
    ((handleCardNextShortcut st cw c now).words.length = st.words.length ∧
     (handleCardNextSrs st cw c now).words.length = st.words.length) ∧
    (∀ i x y, st.words.get? i = some x →
      (handleCardNextShortcut st cw c now).words.get? i = some y →
      (x.id ≠ cw.id → y = x) ∧
      (y.id = x.id ∧ y.word = x.word ∧ y.definitions = x.definitions ∧
       y.examples = x.examples ∧ y.synonyms = x.synonyms ∧
       y.etymology = x.etymology ∧ y.aiMnemonic = x.aiMnemonic ∧
       y.userMnemonic = x.userMnemonic ∧ y.aiImageUrl = x.aiImageUrl ∧
       y.isCustom = x.isCustom)) ∧
    (∀ i x y, st.words.get? i = some x →
      (handleCardNextSrs st cw c now).words.get? i = some y →
      (x.id ≠ cw.id → y = x) ∧
      (y.id = x.id ∧ y.word = x.word ∧ y.definitions = x.definitions ∧
       y.examples = x.examples ∧ y.synonyms = x.synonyms ∧
       y.etymology = x.etymology ∧ y.aiMnemonic = x.aiMnemonic ∧
       y.userMnemonic = x.userMnemonic ∧ y.aiImageUrl = x.aiImageUrl ∧
       y.isCustom = x.isCustom)) ∧
    ((handleCardNextShortcut st cw c now).streak = st.streak ∧
     (handleCardNextShortcut st cw c now).lastLoginDate = st.lastLoginDate ∧
     (handleCardNextShortcut st cw c now).dailyGoal = st.dailyGoal ∧
     (handleCardNextShortcut st cw c now).darkMode = st.darkMode ∧
     (handleCardNextSrs st cw c now).streak = st.streak ∧
     (handleCardNextSrs st cw c now).lastLoginDate = st.lastLoginDate ∧
     (handleCardNextSrs st cw c now).dailyGoal = st.dailyGoal ∧
     (handleCardNextSrs st cw c now).dailyUniqueProgress
       = st.dailyUniqueProgress ∧
     (handleCardNextSrs st cw c now).darkMode = st.darkMode) ∧
    ((handleCardNextShortcut st cw c now).dailyProgress
       = st.dailyProgress + 1 ∧
     (handleCardNextSrs st cw c now).dailyProgress = st.dailyProgress + 1 ∧
     (handleCardNextShortcut st cw c now).dailyUniqueProgress
       = st.dailyUniqueProgress + (if cw.leitnerBox = 0 then 1 else 0)) := by
  refine ⟨⟨?_, ?_⟩, ?_, ?_, ⟨rfl, rfl, rfl, rfl, rfl, rfl, rfl, rfl, rfl⟩,
    ⟨rfl, rfl, rfl⟩⟩
  · simp [handleCardNextShortcut]
  · simp [handleCardNextSrs]
  · intro i x y hx hy
    have hfy := get?_map_eq _ _ _ _ _ hx hy
    subst hfy
    constructor
    · intro hne
      simp [hne]
    · by_cases hid : x.id = cw.id <;> simp [hid]
  · intro i x y hx hy
    have hfy := get?_map_eq _ _ _ _ _ hx hy
    subst hfy
    constructor
    · intro hne
      simp [hne]
    · by_cases hid : x.id = cw.id <;> simp [hid]

/-- concrete check of C9: grading leaves the graded entry's headword in place
while incrementing the daily counter. -/
theorem grading_frame_witness :
    ((handleCardNextShortcut sampleState sampleWordNew true 42).words.get? 0).map
        (fun w => w.word) = some sampleWordNew.word ∧
    (handleCardNextShortcut sampleState sampleWordNew true 42).dailyProgress
      = sampleState.dailyProgress + 1 := by
  obtain ⟨y, hy⟩ : ∃ y,
      (handleCardNextShortcut sampleState sampleWordNew true 42).words.get? 0
        = some y := ⟨_, rfl⟩
  have h := grading_frame sampleState sampleWordNew true 42
  have hw := (h.2.1 0 sampleWordNew y rfl hy).2.2.1
  rw [hy]
  exact ⟨by simp [hw], h.2.2.2.2.1⟩

/-- helper: pulling the element at a valid index to the front of a list with
that position overwritten is a permutation of pushing the new value to the
front. -/
theorem get_cons_set_perm {α : Type} (l : List α) (k : Nat) (a : α)
    (h : k < l.length) :
    List.Perm (l.get ⟨k, h⟩ :: l.set k a) (a :: l) := by
  induction l generalizing k with
  | nil => simp at h
  | cons b t ih =>
    cases k with
    | zero => exact List.Perm.swap a b t
    | succ m =>
      have hm : m < t.length := by simpa using h
      have s1 : List.Perm (t.get ⟨m, hm⟩ :: b :: t.set m a)
          (b :: t.get ⟨m, hm⟩ :: t.set m a) :=
        List.Perm.swap b (t.get ⟨m, hm⟩) (t.set m a)
      have s2 : List.Perm (b :: t.get ⟨m, hm⟩ :: t.set m a) (b :: a :: t) :=
        (ih m hm).cons b
      have s3 : List.Perm (b :: a :: t) (a :: b :: t) := List.Perm.swap a b t
      exact (s1.trans s2).trans s3

/-- helper: the Fisher-Yates swap step permutes the list. -/
theorem swapList_perm {α : Type} (l : List α) (i j : Nat) :
    List.Perm (swapList l i j) l := by
  unfold swapList
  split
  · rename_i x y hx hy
    obtain ⟨hi, hxi⟩ := List.get?_eq_some.mp hx
    obtain ⟨hj, hyj⟩ := List.get?_eq_some.mp hy
    have h1 : List.Perm (x :: l.set i y) (y :: l) := by
      have hperm := get_cons_set_perm l i y hi
      rwa [hxi] at hperm
    have hj2 : j < (l.set i y).length := by simpa using hj
    have hval : (l.set i y).get ⟨j, hj2⟩ = y := by
      by_cases hij : i = j
      · subst hij
        simp [List.get_eq_getElem]
      · simp [List.get_eq_getElem, List.getElem_set_ne (Ne.intro hij)]
        exact (List.get_eq_getElem l ⟨j, hj⟩).symm.trans hyj
    have h2 := get_cons_set_perm (l.set i y) j x hj2
    rw [hval] at h2
    exact (h2.trans h1).cons_inv
  · exact List.Perm.refl l

/-- helper: the Fisher-Yates loop permutes the list for any oracle and any
starting index. -/
theorem fisherYatesGo_perm {α : Type} (rand : Nat → Nat) (n : Nat)
    (l : List α) : List.Perm (fisherYatesGo rand n l) l := by
  induction n generalizing l with
  | zero => exact List.Perm.refl l
  | succ i ih =>
    exact (ih _).trans (swapList_perm l (i + 1) (rand (i + 1) % (i + 2)))

/-- helper: shuffleArray permutes its input for any randomness oracle. -/
theorem shuffleArray_perm {α : Type} (rand : Nat → Nat) (l : List α) :
    List.Perm (shuffleArray rand l) l :=
  fisherYatesGo_perm rand (l.length - 1) l

/-- helper: with nonnegative boxes, started seeds, unstarted seeds and custom
words partition the collection. -/
theorem reshuffle_partition_perm (words : List WordData)
    (hbox : ∀ w ∈ words, 0 ≤ w.leitnerBox) :
    List.Perm
      ((words.filter (fun w => w.id.startsWith seedTag)).filter
          (fun w => w.mastered || decide (0 < w.leitnerBox)) ++
        ((words.filter (fun w => w.id.startsWith seedTag)).filter
            (fun w => !w.mastered && decide (w.leitnerBox = 0)) ++
          words.filter (fun w => !(w.id.startsWith seedTag))))
      words := by
  have hcong :
      (words.filter (fun w => w.id.startsWith seedTag)).filter
          (fun w => !w.mastered && decide (w.leitnerBox = 0))
        = (words.filter (fun w => w.id.startsWith seedTag)).filter
          (fun w => !(w.mastered || decide (0 < w.leitnerBox))) := by
    apply List.filter_congr
    intro w hw
    have h0 : 0 ≤ w.leitnerBox := hbox w (List.mem_filter.mp hw).1
    cases hm : w.mastered with
    | true => simp
    | false =>
      by_cases hb : w.leitnerBox = 0
      · have hnl : ¬(0 < w.leitnerBox) := by omega
        simp [hb, hnl]
      · have hl : 0 < w.leitnerBox := by omega
        simp [hb, hl]
  rw [hcong, ← List.append_assoc]
  have h1 := List.filter_append_perm
    (fun w => w.mastered || decide (0 < w.leitnerBox))
    (words.filter (fun w => w.id.startsWith seedTag))
  have h2 := List.filter_append_perm (fun w => w.id.startsWith seedTag) words
  exact List.Perm.trans (List.Perm.append_right _ h1) h2

/-- C10: when every item's leitnerBox is nonnegative, reshuffledWords — the
reordering applied by handleSmartReshuffle and by the startup auto-migration
— is a permutation of the original words collection: every item appears
exactly once with all of its fields unchanged, and no word is lost or
duplicated. -/
theorem reshuffledWords_perm (rand : Nat → Nat) (words : List WordData)
    (hbox : ∀ w ∈ words, 0 ≤ w.leitnerBox) :
    List.Perm (reshuffledWords rand words) words := by
  show List.Perm
      ((words.filter (fun w => w.id.startsWith seedTag)).filter
          (fun w => w.mastered || decide (0 < w.leitnerBox)) ++
        (shuffleArray rand
            ((words.filter (fun w => w.id.startsWith seedTag)).filter
              (fun w => !w.mastered && decide (w.leitnerBox = 0))) ++
          words.filter (fun w => !(w.id.startsWith seedTag))))
      words
  refine List.Perm.trans ?_ (reshuffle_partition_perm words hbox)
  exact List.Perm.append_left _
    (List.Perm.append_right _ (shuffleArray_perm rand _))

/-- concrete check of C10: reshuffling the sample collection with a constant
oracle permutes it. -/
theorem reshuffledWords_perm_witness :
    (∀ w ∈ sampleState.words, 0 ≤ w.leitnerBox) ∧
    List.Perm (reshuffledWords (fun _ => 0) sampleState.words)
      sampleState.words := by
  refine ⟨by decide, reshuffledWords_perm _ _ (by decide)⟩
